import Mathlib

/-!
Verification of the raster-graphics core of the Interactive-AI-Book repository:
the region flood-fill engine (`src/hooks/useColoringCanvas.ts`) and the freehand
drawing canvas (`src/App.tsx`, `useDrawingCanvas`).

Pixels are modelled as 4-tuples of natural-number channels (the source reads a
`Uint8ClampedArray`); the flat `ImageData` byte buffer is modelled at the
coordinate level as a total function `Int → Int → Rgba` (the source reads bytes
at `(y * width + x) * 4 + i`; an out-of-range read, which in the source yields
`undefined` or an aliased byte, is modelled by the value of the total function
at the out-of-range coordinate — every theorem below about out-of-range seeds
holds for all possible values of that read).  JavaScript numbers that may be
`NaN` (the result of `parseInt`) are modelled as `Option Nat`, `none` standing
for `NaN`.
-/

/-- One RGBA pixel; each channel is a byte value 0–255 in the source. -/
structure Rgba where
  r : Nat
  g : Nat
  b : Nat
  a : Nat
deriving DecidableEq, Repr

/-- The pixel buffer of a canvas, viewed at coordinate level. -/
abbrev Grid := Int → Int → Rgba

/-- A JavaScript number that may be `NaN` (`none`). -/
abbrev JsNum := Option Nat

/-- The value `hexToRgba` returns: four possibly-`NaN` channel values. -/
abbrev JsRgba := JsNum × JsNum × JsNum × JsNum

/-- JavaScript strict equality `n === j` between a byte read from the buffer
(always a number) and a possibly-`NaN` channel: `NaN` is equal to nothing. -/
def jsEqNumB (n : Nat) (j : JsNum) : Bool :=
  match j with
  | some v => n == v
  | none => false

/-- Storing a JavaScript number into a `Uint8ClampedArray` slot: values are
clamped to 0–255 and `NaN` stores 0. -/
def toByte (j : JsNum) : Nat :=
  match j with
  | some v => min v 255
  | none => 0

/-- The pixel produced by the four channel stores
`data[idx] = fillColorRgba[0]; ...; data[idx+3] = fillColorRgba[3]`. -/
def writeRgba (fc : JsRgba) : Rgba :=
  ⟨toByte fc.1, toByte fc.2.1, toByte fc.2.2.1, toByte fc.2.2.2⟩

/-- The three-channel comparison used both for the seed early exit
(`startColor[0] === fillColorRgba[0] && ...`) and for the
"already the fill color" skip inside the loop. -/
def rgbIsFillB (p : Rgba) (fc : JsRgba) : Bool :=
  jsEqNumB p.r fc.1 && jsEqNumB p.g fc.2.1 && jsEqNumB p.b fc.2.2.1

/-- Line-pixel classification: all three channels below the threshold 128. -/
def isLineRgb (r g b : Nat) : Bool :=
  r < 128 && g < 128 && b < 128

/-- `Math.abs(a - b)` for two byte values. -/
def natAbsDiff (a b : Nat) : Nat := ((a : Int) - (b : Int)).natAbs

/-- The `isSameArea` test: every channel within tolerance 32 of the seed color. -/
def inTol (r g b : Nat) (s : Nat × Nat × Nat) : Bool :=
  natAbsDiff r s.1 < 32 && natAbsDiff g s.2.1 < 32 && natAbsDiff b s.2.2 < 32

/-- The values captured by the flood-fill loop from its enclosing scope:
canvas dimensions, seed color, and target fill color. -/
structure FillCtx where
  width : Nat
  height : Nat
  startColor : Nat × Nat × Nat
  fillColor : JsRgba

/-- The mutable state of the flood-fill `while` loop: the pixel buffer and
the worklist queue. -/
structure FillState where
  pix : Grid
  queue : List (Int × Int)

/-- One iteration of the flood-fill `while` loop: pop the front coordinate,
discard it if out of bounds, treat line pixels, out-of-tolerance pixels and
already-fill-colored pixels as boundaries, otherwise color the pixel and
enqueue its four neighbors. -/
def fillStep (ctx : FillCtx) (s : FillState) : FillState :=
  match s.queue with
  | [] => s
  | (x, y) :: rest =>
    if x < 0 ∨ (ctx.width : Int) ≤ x ∨ y < 0 ∨ (ctx.height : Int) ≤ y then
      { s with queue := rest }
    else
      let p := s.pix x y
      if isLineRgb p.r p.g p.b = true then
        { s with queue := rest }
      else if inTol p.r p.g p.b ctx.startColor = false then
        { s with queue := rest }
      else if rgbIsFillB p ctx.fillColor = true then
        { s with queue := rest }
      else
        { pix := fun a b => if a = x ∧ b = y then writeRgba ctx.fillColor else s.pix a b,
          queue := rest ++ [(x + 1, y), (x - 1, y), (x, y + 1), (x, y - 1)] }

/-- The flood-fill `while` loop, with an explicit fuel bound on the number of
iterations.  `fillLoop_drains` below proves that the fuel `fillMeasure` used by
`floodFill` always suffices to empty the queue, so the truncation never fires
on the arguments `floodFill` passes. -/
def fillLoop (ctx : FillCtx) : Nat → FillState → FillState
  | 0, s => s
  | n + 1, s => if s.queue = [] then s else fillLoop ctx n (fillStep ctx s)

/-- The number of in-bounds pixels not yet holding the fill color; each loop
iteration that colors a pixel decreases it. -/
def notFillCount (fc : JsRgba) (w h : Nat) (g : Grid) : Nat :=
  (((Finset.range w) ×ˢ (Finset.range h)).filter
    (fun p => rgbIsFillB (g (p.1 : Int) (p.2 : Int)) fc = false)).card

/-- Fuel bound for the loop: four queue entries are pushed per colored pixel
and every iteration pops one entry. -/
def fillMeasure (ctx : FillCtx) (s : FillState) : Nat :=
  4 * notFillCount ctx.fillColor ctx.width ctx.height s.pix + s.queue.length

/-- The `floodFill` function of `useColoringCanvas.ts`: read the seed color,
exit early if the seed already holds the fill color or is a line pixel,
otherwise run the worklist loop from the seed and return the updated buffer. -/
def floodFill (width height : Nat) (pix : Grid) (startX startY : Int)
    (fillColorRgba : JsRgba) : Grid :=
  let startColor : Nat × Nat × Nat :=
    ((pix startX startY).r, (pix startX startY).g, (pix startX startY).b)
  if rgbIsFillB (pix startX startY) fillColorRgba = true then pix
  else if isLineRgb startColor.1 startColor.2.1 startColor.2.2 = true then pix
  else
    let ctx : FillCtx := ⟨width, height, startColor, fillColorRgba⟩
    let s0 : FillState := ⟨pix, [(startX, startY)]⟩
    (fillLoop ctx (fillMeasure ctx s0) s0).pix

/-- Embed an ordinary color (four byte values) as the JavaScript tuple
`floodFill` receives. -/
def rgbaToJs (f : Rgba) : JsRgba := (some f.r, some f.g, some f.b, some f.a)

/-- Hexadecimal digit recognizer (0–9, a–f, A–F). -/
def isHexDigitB (ch : Char) : Bool :=
  ch.isDigit || ('a' ≤ ch && ch ≤ 'f') || ('A' ≤ ch && ch ≤ 'F')

/-- Value of a single hexadecimal digit. -/
def hexDigitVal (ch : Char) : Nat :=
  if ch.isDigit then ch.toNat - '0'.toNat
  else if 'a' ≤ ch && ch ≤ 'f' then ch.toNat - 'a'.toNat + 10
  else if 'A' ≤ ch && ch ≤ 'F' then ch.toNat - 'A'.toNat + 10
  else 0

/-- Model of the JavaScript builtin `parseInt(s, 16)` on the short strings
`hexToRgba` passes to it: parse the longest prefix of hexadecimal digits,
yielding `NaN` (`none`) when there is none. -/
def parseIntHex (s : String) : JsNum :=
  let digits := s.data.takeWhile isHexDigitB
  if digits.isEmpty then none
  else some (digits.foldl (fun acc ch => 16 * acc + hexDigitVal ch) 0)

/-- The `hexToRgba` helper of `useColoringCanvas.ts`: `#RGB` strings duplicate
each digit, `#RRGGBB` strings take two-digit values, any other length keeps
the initial channel values 0; alpha is always 255. -/
def hexToRgba (hex : String) : JsRgba :=
  if hex.length = 4 then
    match hex.data with
    | _ :: c1 :: c2 :: c3 :: _ =>
      (parseIntHex (String.mk [c1, c1]), parseIntHex (String.mk [c2, c2]),
        parseIntHex (String.mk [c3, c3]), some 255)
    | _ => (some 0, some 0, some 0, some 255)
  else if hex.length = 7 then
    match hex.data with
    | _ :: c1 :: c2 :: c3 :: c4 :: c5 :: c6 :: _ =>
      (parseIntHex (String.mk [c1, c2]), parseIntHex (String.mk [c3, c4]),
        parseIntHex (String.mk [c5, c6]), some 255)
    | _ => (some 0, some 0, some 0, some 255)
  else (some 0, some 0, some 0, some 255)

/-- The result of `getBoundingClientRect()`: the canvas's on-screen position
and displayed size, in CSS pixels. -/
structure Rect where
  left : ℚ
  top : ℚ
  width : ℚ
  height : ℚ

/-- A canvas element: intrinsic pixel dimensions, displayed rectangle, and
pixel buffer. -/
structure Canvas where
  width : Nat
  height : Nat
  rect : Rect
  pix : Grid

/-- The click-to-surface coordinate computation inlined in
`handleCanvasClick`: scale the display-relative offset by
`canvas.width / rect.width` per axis and truncate with `Math.floor`. -/
def clickToCanvasCoords (c : Canvas) (clientX clientY : ℚ) : Int × Int :=
  let scaleX : ℚ := (c.width : ℚ) / c.rect.width
  let scaleY : ℚ := (c.height : ℚ) / c.rect.height
  (⌊(clientX - c.rect.left) * scaleX⌋, ⌊(clientY - c.rect.top) * scaleY⌋)

/-- The `handleCanvasClick` callback of `useColoringCanvas.ts`: bail out
without side effects when the canvas ref or 2d context is unavailable,
otherwise map the click, run `floodFill`, and invoke `onColor`.  The returned
boolean records whether `onColor` was invoked. -/
def handleCanvasClick (canvas : Option Canvas) (hasCtx : Bool)
    (clientX clientY : ℚ) (color : String) : Option Canvas × Bool :=
  match canvas with
  | none => (none, false)
  | some c =>
    if hasCtx = false then (some c, false)
    else
      let xy := clickToCanvasCoords c clientX clientY
      let fillColorRgba := hexToRgba color
      (some { c with pix := floodFill c.width c.height c.pix xy.1 xy.2 fillColorRgba },
        true)

/-- A pointer event delivered to the drawing canvas: a mouse event with client
coordinates, or a touch event with a (possibly empty) list of touch points. -/
inductive PEvent where
  | mouse (clientX clientY : ℚ)
  | touch (touches : List (ℚ × ℚ))

/-- The `getCoordinates` helper of `useDrawingCanvas` (`App.tsx`): `none` when
the canvas ref is empty or a touch event carries no touch points; otherwise the
client coordinate scaled into surface space. -/
def getCoordinates (canvas : Option Canvas) (e : PEvent) : Option (ℚ × ℚ) :=
  match canvas with
  | none => none
  | some c =>
    let pt : Option (ℚ × ℚ) :=
      match e with
      | .mouse cx cy => some (cx, cy)
      | .touch [] => none
      | .touch (t :: _) => some t
    match pt with
    | none => none
    | some (cx, cy) =>
      let scaleX : ℚ := (c.width : ℚ) / c.rect.width
      let scaleY : ℚ := (c.height : ℚ) / c.rect.height
      some ((cx - c.rect.left) * scaleX, (cy - c.rect.top) * scaleY)

/-- The transient stroke state of `useDrawingCanvas`: the `isDrawing` flag and
the last recorded surface-space position. -/
structure DrawState where
  isDrawing : Bool
  lastPosition : Option (ℚ × ℚ)

/-- Opaque white, the blank-canvas pixel (`0xFFFFFFFF` as little-endian RGBA). -/
def white : Rgba := ⟨255, 255, 255, 255⟩

/-- Opaque black, the stroke color (`strokeStyle = '#000000'`). -/
def black : Rgba := ⟨0, 0, 0, 255⟩

/-- The `clearCanvas` operation: `fillRect(0, 0, width, height)` with fill
style `#FFFFFF` repaints every in-bounds pixel to opaque white. -/
def clearCanvas (c : Canvas) : Canvas :=
  { c with pix := fun x y =>
      if 0 ≤ x ∧ x < (c.width : Int) ∧ 0 ≤ y ∧ y < (c.height : Int) then white
      else c.pix x y }

/-- All in-bounds pixel coordinates of a `w × h` canvas. -/
def gridCoords (w h : Nat) : List (Int × Int) :=
  (List.range w).flatMap
    (fun x => (List.range h).map (fun y => (Int.ofNat x, Int.ofNat y)))

/-- The `isCanvasBlank` query: scan the whole pixel buffer and return `true`
iff every pixel equals opaque white. -/
def isCanvasBlank (c : Canvas) : Bool :=
  (gridCoords c.width c.height).all (fun p => c.pix p.1 p.2 == white)

/-- Squared Euclidean distance between two points. -/
def dist2 (p q : ℚ × ℚ) : ℚ := (p.1 - q.1) ^ 2 + (p.2 - q.2) ^ 2

/-- Squared distance from the point `c` to the segment from `a` to `b`
(the projection parameter clamped to `[0, 1]`). -/
def segDist2 (a b c : ℚ × ℚ) : ℚ :=
  let dx := b.1 - a.1
  let dy := b.2 - a.2
  let len2 := dx ^ 2 + dy ^ 2
  if len2 = 0 then dist2 c a
  else
    let t := max 0 (min 1 (((c.1 - a.1) * dx + (c.2 - a.2) * dy) / len2))
    dist2 c (a.1 + t * dx, a.2 + t * dy)

/-- Modelled from the spec: the browser's rasterization of
`moveTo(last); lineTo(next); stroke()` with `lineWidth = 5`, round caps and
joins, and solid black stroke style is not part of the repository's source;
per the spec it draws a straight black line segment of width 5 with round
caps, which paints every in-bounds pixel whose center lies within distance
5/2 of the segment. -/
def strokeSegment (c : Canvas) (p0 p1 : ℚ × ℚ) : Canvas :=
  { c with pix := fun x y =>
      if (0 ≤ x ∧ x < (c.width : Int) ∧ 0 ≤ y ∧ y < (c.height : Int)) ∧
          segDist2 p0 p1 ((x : ℚ) + 1 / 2, (y : ℚ) + 1 / 2) ≤ 25 / 4 then black
      else c.pix x y }

/-- The `draw` handler of `useDrawingCanvas` (the input capturer's *continue*
operation): a no-op unless a stroke is in progress, the canvas and its 2d
context exist, the pointer coordinate resolves, and a last position is
recorded; otherwise it strokes a segment from the last position to the new
coordinate and records the new coordinate. -/
def draw (st : DrawState) (canvas : Option Canvas) (hasCtx : Bool) (e : PEvent) :
    DrawState × Option Canvas :=
  if st.isDrawing = false then (st, canvas)
  else
    match canvas, hasCtx, getCoordinates canvas e, st.lastPosition with
    | some c, true, some coords, some lp =>
      (⟨true, some coords⟩, some (strokeSegment c lp coords))
    | _, _, _, _ => (st, canvas)

/-- Concrete 3×1 surface for the C1 counterexample: the middle pixel already
holds the fill color `cexFillC1`, the outer pixels hold a gray within
tolerance of it. -/
def cexGridC1 : Grid := fun x y =>
  if x = 1 ∧ y = 0 then ⟨220, 200, 200, 255⟩ else ⟨200, 200, 200, 255⟩

/-- The fill color used by the C1 counterexample. -/
def cexFillC1 : Rgba := ⟨220, 200, 200, 255⟩

/-- A uniform gray surface used by several witnesses. -/
def witGridGray : Grid := fun _ _ => ⟨200, 200, 200, 255⟩

/-- A uniform black (line-classified) surface. -/
def blackGrid : Grid := fun _ _ => black

/-- Opaque red, a fill color used by several witnesses. -/
def cRed : Rgba := ⟨255, 0, 0, 255⟩

/-- Concrete 1×1 canvas holding a single line pixel, for the C5
counterexample. -/
def cexCanvasC5 : Canvas := ⟨1, 1, ⟨0, 0, 1, 1⟩, fun _ _ => black⟩

/-- Concrete 4×4 canvas for the C8 witness. -/
def witCanvasC8 : Canvas := ⟨4, 4, ⟨0, 0, 4, 4⟩, fun _ _ => white⟩

/-- 4-connectedness: `q` is one of the four neighbors `floodFill` enqueues
when it colors `p`. -/
def adjTo (p q : Int × Int) : Prop :=
  q = (p.1 + 1, p.2) ∨ q = (p.1 - 1, p.2) ∨ q = (p.1, p.2 + 1) ∨ q = (p.1, p.2 - 1)

instance (p q : Int × Int) : Decidable (adjTo p q) := by
  unfold adjTo; infer_instance

/-- Reachability from `a` through 4-connected pixels all satisfying `P`
(both endpoints included). -/
inductive ReachL (P : Int × Int → Prop) : Int × Int → Int × Int → Prop where
  | refl (p : Int × Int) : P p → ReachL P p p
  | head (p q r : Int × Int) : P p → adjTo p q → ReachL P q r → ReachL P p r

/-- The predicate on pixels the claim's reachability is stated with: in
bounds, not line-classified, and within per-channel tolerance 32 of the seed
color. -/
def passOrig (g0 : Grid) (w h : Nat) (start : Nat × Nat × Nat) (p : Int × Int) : Prop :=
  0 ≤ p.1 ∧ p.1 < (w : Int) ∧ 0 ≤ p.2 ∧ p.2 < (h : Int) ∧
  isLineRgb (g0 p.1 p.2).r (g0 p.1 p.2).g (g0 p.1 p.2).b = false ∧
  inTol (g0 p.1 p.2).r (g0 p.1 p.2).g (g0 p.1 p.2).b start = true

instance (g0 : Grid) (w h : Nat) (start : Nat × Nat × Nat) (p : Int × Int) :
    Decidable (passOrig g0 w h start p) := by
  unfold passOrig; infer_instance

/-- The pixels `floodFill` actually traverses: additionally not already
holding the fill color in the initial buffer. -/
def passFill (g0 : Grid) (w h : Nat) (start : Nat × Nat × Nat) (fc : JsRgba)
    (p : Int × Int) : Prop :=
  passOrig g0 w h start p ∧ rgbIsFillB (g0 p.1 p.2) fc = false

instance (g0 : Grid) (w h : Nat) (start : Nat × Nat × Nat) (fc : JsRgba)
    (p : Int × Int) : Decidable (passFill g0 w h start fc p) := by
  unfold passFill; infer_instance

lemma ReachL.pass_start {P : Int × Int → Prop} {a p : Int × Int}
    (h : ReachL P a p) : P a := by
  cases h with
  | refl _ hp => exact hp
  | head _ _ _ hp _ _ => exact hp

lemma ReachL.pass_end {P : Int × Int → Prop} {a p : Int × Int}
    (h : ReachL P a p) : P p := by
  induction h with
  | refl _ hp => exact hp
  | head _ _ _ _ _ _ ih => exact ih

lemma ReachL.mono {P Q : Int × Int → Prop} (hPQ : ∀ v, P v → Q v)
    {a p : Int × Int} (h : ReachL P a p) : ReachL Q a p := by
  induction h with
  | refl p hp => exact .refl p (hPQ p hp)
  | head p q r hp hadj _ ih => exact .head p q r (hPQ p hp) hadj ih

lemma ReachL.snoc {P : Int × Int → Prop} {a p q : Int × Int}
    (h : ReachL P a p) (hadj : adjTo p q) (hq : P q) : ReachL P a q := by
  induction h with
  | refl p hp => exact .head p q q hp hadj (.refl q hq)
  | head p v r hp hadj' _ ih => exact .head p v q hp hadj' (ih hadj)

/-- When the pixel `q0` is removed from the uncolored set, every endpoint
reachable from `a` through uncolored pixels is either `q0` itself, or remains
reachable from `a` or from some 4-neighbor of `q0` through the smaller set. -/
lemma ReachL.avoid {P : Int × Int → Prop} (q0 : Int × Int)
    {a p : Int × Int} (h : ReachL P a p) :
    p = q0 ∨ ∃ b, ReachL (fun v => P v ∧ v ≠ q0) b p ∧ (b = a ∨ adjTo q0 b) := by
  induction h with
  | refl p hp =>
    by_cases hpq : p = q0
    · exact .inl hpq
    · exact .inr ⟨p, .refl p ⟨hp, hpq⟩, .inl rfl⟩
  | head p v r hp hadj _ ih =>
    rcases ih with h1 | ⟨b, hb, hbcase⟩
    · exact .inl h1
    · rcases hbcase with hbv | hbadj
      · subst hbv
        by_cases hpq : p = q0
        · subst hpq
          exact .inr ⟨b, hb, .inr hadj⟩
        · exact .inr ⟨p, .head p b r ⟨hp, hpq⟩ hadj hb, .inl rfl⟩
      · exact .inr ⟨b, hb, .inr hbadj⟩

lemma fillLoop_empty (ctx : FillCtx) (n : Nat) (s : FillState)
    (h : s.queue = []) : fillLoop ctx n s = s := by
  cases n with
  | zero => rfl
  | succ n => simp [fillLoop, h]

lemma fillLoop_add (ctx : FillCtx) (n k : Nat) (s : FillState) :
    fillLoop ctx (n + k) s = fillLoop ctx k (fillLoop ctx n s) := by
  induction n generalizing s with
  | zero => simp [fillLoop]
  | succ n ih =>
    by_cases h : s.queue = []
    · rw [fillLoop_empty ctx (n + 1 + k) s h, fillLoop_empty ctx (n + 1) s h,
        fillLoop_empty ctx k s h]
    · have h1 : n + 1 + k = (n + k) + 1 := by omega
      rw [h1]
      show (if s.queue = [] then s else fillLoop ctx (n + k) (fillStep ctx s))
        = fillLoop ctx k (fillLoop ctx (n + 1) s)
      rw [if_neg h]
      show fillLoop ctx (n + k) (fillStep ctx s)
        = fillLoop ctx k (fillLoop ctx (n + 1) s)
      have h2 : fillLoop ctx (n + 1) s = fillLoop ctx n (fillStep ctx s) := by
        show (if s.queue = [] then s else fillLoop ctx n (fillStep ctx s)) = _
        rw [if_neg h]
      rw [h2, ih]

/-- An ordinary color with byte-valued red, green and blue channels tests
equal to itself after the clamped store. -/
lemma rgbIsFillB_writeRgba (f : Rgba) (hr : f.r ≤ 255) (hg : f.g ≤ 255)
    (hb : f.b ≤ 255) :
    rgbIsFillB (writeRgba (rgbaToJs f)) (rgbaToJs f) = true := by
  simp [writeRgba, rgbaToJs, rgbIsFillB, jsEqNumB, toByte,
    Nat.min_eq_left hr, Nat.min_eq_left hg, Nat.min_eq_left hb]

/-- Coloring an in-bounds pixel that did not yet hold the fill color strictly
decreases the number of in-bounds pixels not holding the fill color. -/
lemma notFillCount_write_lt (fc : JsRgba) (w h : Nat) (g : Grid) (x y : Int)
    (hx0 : 0 ≤ x) (hxw : x < (w : Int)) (hy0 : 0 ≤ y) (hyh : y < (h : Int))
    (hcur : rgbIsFillB (g x y) fc = false)
    (hfc : rgbIsFillB (writeRgba fc) fc = true) :
    notFillCount fc w h (fun a b => if a = x ∧ b = y then writeRgba fc else g a b)
      < notFillCount fc w h g := by
  unfold notFillCount
  have hxx : ((x.toNat : Int)) = x := Int.toNat_of_nonneg hx0
  have hyy : ((y.toNat : Int)) = y := Int.toNat_of_nonneg hy0
  have hq0mem : (x.toNat, y.toNat) ∈
      ((Finset.range w) ×ˢ (Finset.range h)).filter
        (fun p => rgbIsFillB (g (p.1 : Int) (p.2 : Int)) fc = false) := by
    rw [Finset.mem_filter, Finset.mem_product, Finset.mem_range, Finset.mem_range]
    refine ⟨⟨by omega, by omega⟩, ?_⟩
    simpa [hxx, hyy] using hcur
  have hsub : ((Finset.range w) ×ˢ (Finset.range h)).filter
        (fun p => rgbIsFillB
          ((fun a b => if a = x ∧ b = y then writeRgba fc else g a b)
            (p.1 : Int) (p.2 : Int)) fc = false) ⊆
      (((Finset.range w) ×ˢ (Finset.range h)).filter
        (fun p => rgbIsFillB (g (p.1 : Int) (p.2 : Int)) fc = false)).erase
          (x.toNat, y.toNat) := by
    intro p hp
    rw [Finset.mem_filter] at hp
    obtain ⟨hpS, hpred⟩ := hp
    by_cases hpq : p = (x.toNat, y.toNat)
    · subst hpq
      simp only [hxx, hyy, and_self, if_pos, hfc] at hpred
      exact absurd hpred (by simp)
    · rw [Finset.mem_erase, Finset.mem_filter]
      refine ⟨hpq, hpS, ?_⟩
      have hne : ¬(((p.1 : Int)) = x ∧ ((p.2 : Int)) = y) := by
        rintro ⟨h1, h2⟩
        exact hpq (Prod.ext (by omega) (by omega))
      simp only [hne, if_false] at hpred
      exact hpred
  calc (((Finset.range w) ×ˢ (Finset.range h)).filter
        (fun p => rgbIsFillB
          ((fun a b => if a = x ∧ b = y then writeRgba fc else g a b)
            (p.1 : Int) (p.2 : Int)) fc = false)).card
      ≤ ((((Finset.range w) ×ˢ (Finset.range h)).filter
        (fun p => rgbIsFillB (g (p.1 : Int) (p.2 : Int)) fc = false)).erase
          (x.toNat, y.toNat)).card := Finset.card_le_card hsub
    _ < (((Finset.range w) ×ˢ (Finset.range h)).filter
        (fun p => rgbIsFillB (g (p.1 : Int) (p.2 : Int)) fc = false)).card :=
        Finset.card_erase_lt_of_mem hq0mem

/-- Every loop iteration on a nonempty queue strictly decreases the fuel
measure (the claim's argument: the grid is finite and each pixel is colored at
most once before being excluded by the already-fill-color check). -/
lemma fillMeasure_step_lt (ctx : FillCtx) (s : FillState)
    (hq : s.queue ≠ [])
    (hfc : rgbIsFillB (writeRgba ctx.fillColor) ctx.fillColor = true) :
    fillMeasure ctx (fillStep ctx s) < fillMeasure ctx s := by
  obtain ⟨pix, queue⟩ := s
  rcases queue with _ | ⟨⟨x, y⟩, rest⟩
  · exact absurd rfl hq
  · show fillMeasure ctx (fillStep ctx ⟨pix, (x, y) :: rest⟩) < _
    unfold fillStep
    simp only
    split_ifs with hb hline htol hfill
    · simp only [fillMeasure, List.length_cons]; omega
    · simp only [fillMeasure, List.length_cons]; omega
    · simp only [fillMeasure, List.length_cons]; omega
    · simp only [fillMeasure, List.length_cons]; omega
    · have hcnt := notFillCount_write_lt ctx.fillColor ctx.width ctx.height pix x y
        (by omega) (by omega) (by omega) (by omega)
        (by simpa using hfill) hfc
      simp only [fillMeasure, List.length_cons, List.length_append]
      simp only [List.length_cons, List.length_nil]
      omega

/-- With a byte-valued fill color the fuel `fillMeasure` always suffices:
after at most that many iterations the queue is empty. -/
lemma fillLoop_drains (ctx : FillCtx)
    (hfc : rgbIsFillB (writeRgba ctx.fillColor) ctx.fillColor = true) :
    ∀ n s, fillMeasure ctx s ≤ n → (fillLoop ctx n s).queue = [] := by
  intro n
  induction n with
  | zero =>
    intro s hm
    have hq : s.queue = [] := by
      have : s.queue.length = 0 := by unfold fillMeasure at hm; omega
      exact List.length_eq_zero.mp this
    simpa [fillLoop] using hq
  | succ n ih =>
    intro s hm
    by_cases h : s.queue = []
    · rw [fillLoop_empty ctx (n + 1) s h]; exact h
    · have hstep : fillLoop ctx (n + 1) s = fillLoop ctx n (fillStep ctx s) := by
        show (if s.queue = [] then s else fillLoop ctx n (fillStep ctx s)) = _
        rw [if_neg h]
      rw [hstep]
      exact ih _ (by have := fillMeasure_step_lt ctx s h hfc; omega)

/-- The seed color `startColor` read by `floodFill` at the click coordinate. -/
def seedColor (g0 : Grid) (sx sy : Int) : Nat × Nat × Nat :=
  ((g0 sx sy).r, (g0 sx sy).g, (g0 sx sy).b)

lemma rgbIsFillB_self (f : Rgba) : rgbIsFillB f (rgbaToJs f) = true := by
  simp [rgbIsFillB, rgbaToJs, jsEqNumB]

lemma ne_of_rgbIsFillB_false {p f : Rgba}
    (h : rgbIsFillB p (rgbaToJs f) = false) : p ≠ f := by
  intro he
  subst he
  rw [rgbIsFillB_self] at h
  exact absurd h (by simp)

lemma inTol_self (r g b : Nat) : inTol r g b (r, g, b) = true := by
  simp [inTol, natAbsDiff]

lemma writeRgba_rgbaToJs (f : Rgba) (h1 : f.r ≤ 255) (h2 : f.g ≤ 255)
    (h3 : f.b ≤ 255) (h4 : f.a ≤ 255) : writeRgba (rgbaToJs f) = f := by
  cases f with
  | mk r g b a => simp_all [writeRgba, rgbaToJs, toByte, Nat.min_eq_left]

/-- The loop invariant of the flood-fill worklist loop: (1) every pixel holds
its initial color or has been colored with the fill color and is reachable
from the seed through fillable pixels; (2) every reachable pixel is colored or
still connected to some queue entry through uncolored fillable pixels; (3)
every queue entry is the seed or a pushed neighbor of a colored reachable
pixel. -/
def FillInv (w h : Nat) (g0 : Grid) (sx sy : Int) (f : Rgba) (s : FillState) : Prop :=
  (∀ p : Int × Int, s.pix p.1 p.2 = g0 p.1 p.2 ∨
      (passFill g0 w h (seedColor g0 sx sy) (rgbaToJs f) p ∧
        ReachL (passFill g0 w h (seedColor g0 sx sy) (rgbaToJs f)) (sx, sy) p ∧
        s.pix p.1 p.2 = f)) ∧
  (∀ p : Int × Int,
      ReachL (passFill g0 w h (seedColor g0 sx sy) (rgbaToJs f)) (sx, sy) p →
      s.pix p.1 p.2 = f ∨
        ∃ q ∈ s.queue,
          ReachL (fun v => passFill g0 w h (seedColor g0 sx sy) (rgbaToJs f) v ∧
            s.pix v.1 v.2 = g0 v.1 v.2) q p) ∧
  (∀ q ∈ s.queue, q = (sx, sy) ∨
      ∃ p' : Int × Int, passFill g0 w h (seedColor g0 sx sy) (rgbaToJs f) p' ∧
        ReachL (passFill g0 w h (seedColor g0 sx sy) (rgbaToJs f)) (sx, sy) p' ∧
        adjTo p' q)

/-- The invariant holds on the initial loop state. -/
lemma fillInv_init (w h : Nat) (g0 : Grid) (sx sy : Int) (f : Rgba) :
    FillInv w h g0 sx sy f ⟨g0, [(sx, sy)]⟩ := by
  refine ⟨fun p => .inl rfl, ?_, ?_⟩
  · intro p hRp
    exact .inr ⟨(sx, sy), List.mem_singleton_self _,
      hRp.mono (fun v hv => ⟨hv, rfl⟩)⟩
  · intro q hq
    exact .inl (List.mem_singleton.mp hq)

/-- Popping a queue entry that cannot lie on any uncolored fillable path
(out of bounds, line, out of tolerance, or already fill-colored) preserves the
invariant. -/
lemma fillInv_drop (w h : Nat) (g0 : Grid) (sx sy : Int) (f : Rgba)
    (pix : Grid) (x y : Int) (rest : List (Int × Int))
    (hinv : FillInv w h g0 sx sy f ⟨pix, (x, y) :: rest⟩)
    (hdead : ¬ (passFill g0 w h (seedColor g0 sx sy) (rgbaToJs f) (x, y) ∧
      pix x y = g0 x y)) :
    FillInv w h g0 sx sy f ⟨pix, rest⟩ := by
  unfold FillInv at hinv ⊢
  obtain ⟨v1, v2, v3⟩ := hinv
  refine ⟨v1, ?_, fun q hq => v3 q (List.mem_cons_of_mem _ hq)⟩
  intro p hRp
  rcases v2 p hRp with hf | ⟨q, hqmem, hpath⟩
  · exact .inl hf
  · rcases List.mem_cons.mp hqmem with hq0 | hqrest
    · exfalso
      rw [hq0] at hpath
      exact hdead hpath.pass_start
    · exact .inr ⟨q, hqrest, hpath⟩

/-- The loop invariant is preserved by one iteration of the worklist loop. -/
lemma fillInv_step (w h : Nat) (g0 : Grid) (sx sy : Int) (f : Rgba)
    (hnorm : f.r ≤ 255 ∧ f.g ≤ 255 ∧ f.b ≤ 255 ∧ f.a ≤ 255)
    (s : FillState) (hq : s.queue ≠ [])
    (hinv : FillInv w h g0 sx sy f s) :
    FillInv w h g0 sx sy f
      (fillStep ⟨w, h, seedColor g0 sx sy, rgbaToJs f⟩ s) := by
  obtain ⟨pix, queue⟩ := s
  rcases queue with _ | ⟨⟨x, y⟩, rest⟩
  · exact absurd rfl hq
  unfold fillStep
  dsimp only
  split_ifs with hb hline htol hfill
  · -- out of bounds
    refine fillInv_drop w h g0 sx sy f pix x y rest hinv ?_
    rintro ⟨⟨⟨hx0, hxw, hy0, hyh, -, -⟩, -⟩, -⟩
    omega
  · -- line pixel
    refine fillInv_drop w h g0 sx sy f pix x y rest hinv ?_
    rintro ⟨⟨⟨-, -, -, -, hlg, -⟩, -⟩, hpg⟩
    have hlg' : isLineRgb (g0 x y).r (g0 x y).g (g0 x y).b = false := hlg
    rw [hpg, hlg'] at hline
    exact absurd hline (by simp)
  · -- out of tolerance
    refine fillInv_drop w h g0 sx sy f pix x y rest hinv ?_
    rintro ⟨⟨⟨-, -, -, -, -, htg⟩, -⟩, hpg⟩
    have htg' : inTol (g0 x y).r (g0 x y).g (g0 x y).b (seedColor g0 sx sy) = true := htg
    rw [hpg, htg'] at htol
    exact absurd htol (by simp)
  · -- already the fill color
    refine fillInv_drop w h g0 sx sy f pix x y rest hinv ?_
    rintro ⟨⟨-, hfg⟩, hpg⟩
    have hfg' : rgbIsFillB (g0 x y) (rgbaToJs f) = false := hfg
    rw [hpg, hfg'] at hfill
    exact absurd hfill (by simp)
  · -- color the pixel and push its neighbors
    rw [writeRgba_rgbaToJs f hnorm.1 hnorm.2.1 hnorm.2.2.1 hnorm.2.2.2]
    unfold FillInv at hinv
    obtain ⟨v1, v2, v3⟩ := hinv
    have hb' : 0 ≤ x ∧ x < (w : Int) ∧ 0 ≤ y ∧ y < (h : Int) := by
      push_neg at hb
      exact ⟨by omega, by omega, by omega, by omega⟩
    have hline' : isLineRgb (pix x y).r (pix x y).g (pix x y).b = false := by
      simpa using hline
    have htol' : inTol (pix x y).r (pix x y).g (pix x y).b (seedColor g0 sx sy)
        = true := by simpa using htol
    have hfill' : rgbIsFillB (pix x y) (rgbaToJs f) = false := by
      simpa using hfill
    have hcur : pix x y = g0 x y := by
      rcases v1 (x, y) with hg | ⟨-, -, hf⟩
      · exact hg
      · exfalso
        have hf' : pix x y = f := hf
        rw [hf', rgbIsFillB_self] at hfill'
        exact absurd hfill' (by simp)
    have hPxy : passFill g0 w h (seedColor g0 sx sy) (rgbaToJs f) (x, y) := by
      refine ⟨⟨hb'.1, hb'.2.1, hb'.2.2.1, hb'.2.2.2, ?_, ?_⟩, ?_⟩
      · show isLineRgb (g0 x y).r (g0 x y).g (g0 x y).b = false
        rw [← hcur]; exact hline'
      · show inTol (g0 x y).r (g0 x y).g (g0 x y).b (seedColor g0 sx sy) = true
        rw [← hcur]; exact htol'
      · show rgbIsFillB (g0 x y) (rgbaToJs f) = false
        rw [← hcur]; exact hfill'
    have hRxy : ReachL (passFill g0 w h (seedColor g0 sx sy) (rgbaToJs f))
        (sx, sy) (x, y) := by
      rcases v3 (x, y) (List.mem_cons_self _ _) with hseed | ⟨p', -, hRp', hadj⟩
      · rw [hseed]
        exact .refl _ (hseed ▸ hPxy)
      · exact hRp'.snoc hadj hPxy
    unfold FillInv
    refine ⟨?_, ?_, ?_⟩
    · -- every pixel: untouched or colored-and-reachable
      intro p
      by_cases hpq : p = (x, y)
      · rw [hpq]
        exact .inr ⟨hPxy, hRxy, by simp⟩
      · have hcond : ¬(p.1 = x ∧ p.2 = y) := fun hc => hpq (Prod.ext hc.1 hc.2)
        rcases v1 p with hg | ⟨hPp, hRp, hf⟩
        · left
          show (if p.1 = x ∧ p.2 = y then f else pix p.1 p.2) = g0 p.1 p.2
          rw [if_neg hcond]; exact hg
        · right
          refine ⟨hPp, hRp, ?_⟩
          show (if p.1 = x ∧ p.2 = y then f else pix p.1 p.2) = f
          rw [if_neg hcond]; exact hf
    · -- every reachable pixel: colored or still queued-connected
      intro p hRp
      by_cases hpfix :
          (fun a b => if a = x ∧ b = y then f else pix a b) p.1 p.2 = f
      · exact .inl hpfix
      · have hpq : p ≠ (x, y) := by
          intro he
          exact hpfix (by rw [he]; simp)
        have hcond : ¬(p.1 = x ∧ p.2 = y) := fun hc => hpq (Prod.ext hc.1 hc.2)
        have hnp : (fun a b => if a = x ∧ b = y then f else pix a b) p.1 p.2
            = pix p.1 p.2 := by
          show (if p.1 = x ∧ p.2 = y then f else pix p.1 p.2) = pix p.1 p.2
          rw [if_neg hcond]
        rcases v2 p hRp with hf | ⟨q, hqmem, hpath⟩
        · exact absurd (hnp.trans hf) hpfix
        · rcases hpath.avoid (x, y) with hpeq | ⟨b, hbpath, hbcase⟩
          · exact absurd hpeq hpq
          · have hbpath' : ReachL (fun v =>
                passFill g0 w h (seedColor g0 sx sy) (rgbaToJs f) v ∧
                (fun a b => if a = x ∧ b = y then f else pix a b) v.1 v.2
                  = g0 v.1 v.2) b p := by
              refine hbpath.mono (fun v hv => ⟨hv.1.1, ?_⟩)
              have hcondv : ¬(v.1 = x ∧ v.2 = y) :=
                fun hc => hv.2 (Prod.ext hc.1 hc.2)
              show (if v.1 = x ∧ v.2 = y then f else pix v.1 v.2) = g0 v.1 v.2
              rw [if_neg hcondv]
              exact hv.1.2
            right
            rcases hbcase with hbq | hbadj
            · rw [hbq] at hbpath'
              rcases List.mem_cons.mp hqmem with hqxy | hqrest
              · exfalso
                have hstart := hbpath.pass_start
                rw [hbq, hqxy] at hstart
                exact hstart.2 rfl
              · exact ⟨q, List.mem_append_left _ hqrest, hbpath'⟩
            · have hbmem : b ∈ rest ++ [(x + 1, y), (x - 1, y), (x, y + 1), (x, y - 1)] := by
                apply List.mem_append_right
                rcases hbadj with h1 | h1 | h1 | h1 <;> simp [h1]
              exact ⟨b, hbmem, hbpath'⟩
    · -- every queue entry: seed or neighbor of a colored reachable pixel
      intro q hqmem
      rcases List.mem_append.mp hqmem with hqrest | hqpush
      · exact v3 q (List.mem_cons_of_mem _ hqrest)
      · right
        refine ⟨(x, y), hPxy, hRxy, ?_⟩
        simp only [List.mem_cons, List.mem_singleton, List.not_mem_nil, or_false]
          at hqpush
        rcases hqpush with h1 | h1 | h1 | h1
        · exact .inl h1
        · exact .inr (.inl h1)
        · exact .inr (.inr (.inl h1))
        · exact .inr (.inr (.inr h1))

/-- The loop invariant is preserved by any number of loop iterations. -/
lemma fillInv_loop (w h : Nat) (g0 : Grid) (sx sy : Int) (f : Rgba)
    (hnorm : f.r ≤ 255 ∧ f.g ≤ 255 ∧ f.b ≤ 255 ∧ f.a ≤ 255) :
    ∀ (n : Nat) (s : FillState), FillInv w h g0 sx sy f s →
      FillInv w h g0 sx sy f
        (fillLoop ⟨w, h, seedColor g0 sx sy, rgbaToJs f⟩ n s) := by
  intro n
  induction n with
  | zero => intro s hs; exact hs
  | succ n ih =>
    intro s hs
    by_cases hq : s.queue = []
    · rw [fillLoop_empty _ _ _ hq]; exact hs
    · have hstep : fillLoop ⟨w, h, seedColor g0 sx sy, rgbaToJs f⟩ (n + 1) s
          = fillLoop ⟨w, h, seedColor g0 sx sy, rgbaToJs f⟩ n
              (fillStep ⟨w, h, seedColor g0 sx sy, rgbaToJs f⟩ s) := by
        show (if s.queue = [] then s else _) = _
        rw [if_neg hq]
      rw [hstep]
      exact ih _ (fillInv_step w h g0 sx sy f hnorm s hq hs)

/-- Full characterization of `floodFill` for an ordinary (byte-valued) fill
color: a pixel ends up holding the fill color iff it is 4-connected-reachable
from the seed through in-bounds, non-line, in-tolerance pixels that do not
already hold the fill color; every other pixel is unchanged. -/
lemma floodFill_spec (w h : Nat) (g0 : Grid) (sx sy : Int) (f : Rgba)
    (hnorm : f.r ≤ 255 ∧ f.g ≤ 255 ∧ f.b ≤ 255 ∧ f.a ≤ 255) :
    (∀ p : Int × Int,
        ReachL (passFill g0 w h (seedColor g0 sx sy) (rgbaToJs f)) (sx, sy) p →
        floodFill w h g0 sx sy (rgbaToJs f) p.1 p.2 = f) ∧
    (∀ p : Int × Int,
        ¬ ReachL (passFill g0 w h (seedColor g0 sx sy) (rgbaToJs f)) (sx, sy) p →
        floodFill w h g0 sx sy (rgbaToJs f) p.1 p.2 = g0 p.1 p.2) := by
  unfold floodFill
  dsimp only
  split_ifs with hseedfill hseedline
  · -- seed already holds the fill color: no reachable pixels at all
    refine ⟨?_, fun p _ => rfl⟩
    intro p hRp
    exfalso
    have h2 : rgbIsFillB (g0 sx sy) (rgbaToJs f) = false := hRp.pass_start.2
    rw [h2] at hseedfill
    exact absurd hseedfill (by simp)
  · -- seed is a line pixel: no reachable pixels at all
    refine ⟨?_, fun p _ => rfl⟩
    intro p hRp
    exfalso
    obtain ⟨⟨-, -, -, -, hlg, -⟩, -⟩ := hRp.pass_start
    have hlg' : isLineRgb (g0 sx sy).r (g0 sx sy).g (g0 sx sy).b = false := hlg
    rw [hlg'] at hseedline
    exact absurd hseedline (by simp)
  · -- run the loop
    have hfc : rgbIsFillB (writeRgba (rgbaToJs f)) (rgbaToJs f) = true :=
      rgbIsFillB_writeRgba f hnorm.1 hnorm.2.1 hnorm.2.2.1
    have hinvN := fillInv_loop w h g0 sx sy f hnorm
      (fillMeasure ⟨w, h, seedColor g0 sx sy, rgbaToJs f⟩ ⟨g0, [(sx, sy)]⟩)
      ⟨g0, [(sx, sy)]⟩ (fillInv_init w h g0 sx sy f)
    have hdrain := fillLoop_drains ⟨w, h, seedColor g0 sx sy, rgbaToJs f⟩ hfc
      (fillMeasure ⟨w, h, seedColor g0 sx sy, rgbaToJs f⟩ ⟨g0, [(sx, sy)]⟩)
      ⟨g0, [(sx, sy)]⟩ le_rfl
    unfold FillInv at hinvN
    obtain ⟨v1, v2, -⟩ := hinvN
    constructor
    · intro p hRp
      rcases v2 p hRp with hf | ⟨q, hqmem, -⟩
      · exact hf
      · rw [hdrain] at hqmem
        exact absurd hqmem (List.not_mem_nil q)
    · intro p hnR
      rcases v1 p with hg | ⟨-, hRp, -⟩
      · exact hg
      · exact absurd hRp hnR

/-- Early exit: a seed that already holds the fill color leaves the buffer
untouched. -/
lemma floodFill_seedfill_eq (w h : Nat) (g0 : Grid) (sx sy : Int) (fc : JsRgba)
    (hseed : rgbIsFillB (g0 sx sy) fc = true) :
    floodFill w h g0 sx sy fc = g0 := by
  unfold floodFill
  dsimp only
  rw [if_pos hseed]

/-- Early exit: a line-classified seed leaves the buffer untouched. -/
lemma floodFill_line_eq (w h : Nat) (g0 : Grid) (sx sy : Int) (fc : JsRgba)
    (hline : isLineRgb (g0 sx sy).r (g0 sx sy).g (g0 sx sy).b = true) :
    floodFill w h g0 sx sy fc = g0 := by
  unfold floodFill
  dsimp only
  split_ifs <;> rfl

/-- An out-of-bounds seed entry is discarded by the bounds check on the first
iteration, leaving the buffer untouched and the queue empty. -/
lemma fillLoop_oob (ctx : FillCtx) (g0 : Grid) (sx sy : Int) (n : Nat)
    (hoob : sx < 0 ∨ (ctx.width : Int) ≤ sx ∨ sy < 0 ∨ (ctx.height : Int) ≤ sy) :
    fillLoop ctx (n + 1) ⟨g0, [(sx, sy)]⟩ = ⟨g0, []⟩ := by
  have hstep : fillStep ctx ⟨g0, [(sx, sy)]⟩ = ⟨g0, []⟩ := by
    unfold fillStep
    dsimp only
    rw [if_pos hoob]
  show (if ([((sx, sy))] : List (Int × Int)) = [] then _
    else fillLoop ctx n (fillStep ctx ⟨g0, [(sx, sy)]⟩)) = _
  rw [if_neg (by simp), hstep, fillLoop_empty _ _ _ rfl]

/-- `floodFill` at an out-of-bounds seed leaves the buffer untouched. -/
lemma floodFill_oob_eq (w h : Nat) (g0 : Grid) (sx sy : Int) (fc : JsRgba)
    (hoob : sx < 0 ∨ (w : Int) ≤ sx ∨ sy < 0 ∨ (h : Int) ≤ sy) :
    floodFill w h g0 sx sy fc = g0 := by
  unfold floodFill
  dsimp only
  split_ifs with h1 h2
  · rfl
  · rfl
  · have hm : fillMeasure ⟨w, h, ((g0 sx sy).r, (g0 sx sy).g, (g0 sx sy).b), fc⟩
        ⟨g0, [(sx, sy)]⟩
        = 4 * notFillCount fc w h g0 + 1 := by
      simp [fillMeasure]
    rw [hm, fillLoop_oob _ _ _ _ _ hoob]

/-- Once the queue is empty, further fuel does not change the loop result. -/
lemma fillLoop_stable (ctx : FillCtx) (n m : Nat) (s : FillState)
    (hdone : (fillLoop ctx n s).queue = []) (hnm : n ≤ m) :
    fillLoop ctx m s = fillLoop ctx n s := by
  obtain ⟨k, rfl⟩ := Nat.exists_eq_add_of_le hnm
  rw [fillLoop_add, fillLoop_empty _ _ _ hdone]

/-- C1 (counterexample to the claim as stated): on a 3×1 surface whose middle
pixel already holds the fill color, the rightmost pixel is
4-connected-reachable from the seed without crossing any line-classified or
out-of-tolerance pixel, yet after `floodFill` it does not hold the fill color
— the already-fill-colored middle pixel is skipped without its neighbors
being enqueued. -/
theorem c1_counterexample :
    isLineRgb (cexGridC1 0 0).r (cexGridC1 0 0).g (cexGridC1 0 0).b = false ∧
    ReachL (passOrig cexGridC1 3 1 (seedColor cexGridC1 0 0)) (0, 0) (2, 0) ∧
    floodFill 3 1 cexGridC1 0 0 (rgbaToJs cexFillC1) 2 0 ≠ cexFillC1 := by
  refine ⟨by decide, ?_, by decide⟩
  exact ReachL.head (0, 0) (1, 0) (2, 0) (by decide) (by decide)
    (ReachL.head (1, 0) (2, 0) (2, 0) (by decide) (by decide)
      (ReachL.refl (2, 0) (by decide)))

/-- C1 (amended): for every surface and every in-bounds click whose pixel is
within per-channel tolerance 32 of the seed color and not line-classified,
after `floodFill` every pixel 4-connected-reachable from the seed without
crossing a line-classified, out-of-tolerance, *or already-fill-colored* pixel
holds the fill color, and no pixel outside that reachable region changes (in
particular a fill inside a region enclosed by line pixels never colors any
pixel outside the boundary, since reachability cannot cross line pixels). -/
theorem c1_fill_colors_reachable_region (w h : Nat) (g0 : Grid) (sx sy : Int)
    (f : Rgba)
    (hnorm : f.r ≤ 255 ∧ f.g ≤ 255 ∧ f.b ≤ 255 ∧ f.a ≤ 255)
    (hsx : 0 ≤ sx ∧ sx < (w : Int)) (hsy : 0 ≤ sy ∧ sy < (h : Int))
    (hseedtol : inTol (g0 sx sy).r (g0 sx sy).g (g0 sx sy).b
      (seedColor g0 sx sy) = true)
    (hseedline : isLineRgb (g0 sx sy).r (g0 sx sy).g (g0 sx sy).b = false) :
    (∀ p : Int × Int,
        ReachL (passFill g0 w h (seedColor g0 sx sy) (rgbaToJs f)) (sx, sy) p →
        floodFill w h g0 sx sy (rgbaToJs f) p.1 p.2 = f) ∧
    (∀ p : Int × Int,
        ¬ ReachL (passFill g0 w h (seedColor g0 sx sy) (rgbaToJs f)) (sx, sy) p →
        floodFill w h g0 sx sy (rgbaToJs f) p.1 p.2 = g0 p.1 p.2) :=
  floodFill_spec w h g0 sx sy f hnorm

/-- C1 witness: the amended theorem applied to a concrete 2×1 gray surface
filled with red from the in-bounds seed (0, 0). -/
theorem c1_fill_colors_reachable_region_witness :
    (cRed.r ≤ 255 ∧ cRed.g ≤ 255 ∧ cRed.b ≤ 255 ∧ cRed.a ≤ 255) ∧
    ((0 : Int) ≤ 0 ∧ (0 : Int) < ((2 : Nat) : Int)) ∧
    ((0 : Int) ≤ 0 ∧ (0 : Int) < ((1 : Nat) : Int)) ∧
    inTol (witGridGray 0 0).r (witGridGray 0 0).g (witGridGray 0 0).b
      (seedColor witGridGray 0 0) = true ∧
    isLineRgb (witGridGray 0 0).r (witGridGray 0 0).g (witGridGray 0 0).b
      = false ∧
    ((∀ p : Int × Int,
        ReachL (passFill witGridGray 2 1 (seedColor witGridGray 0 0)
          (rgbaToJs cRed)) (0, 0) p →
        floodFill 2 1 witGridGray 0 0 (rgbaToJs cRed) p.1 p.2 = cRed) ∧
     (∀ p : Int × Int,
        ¬ ReachL (passFill witGridGray 2 1 (seedColor witGridGray 0 0)
          (rgbaToJs cRed)) (0, 0) p →
        floodFill 2 1 witGridGray 0 0 (rgbaToJs cRed) p.1 p.2
          = witGridGray p.1 p.2)) :=
  ⟨by decide, by decide, by decide, by decide, by decide,
    c1_fill_colors_reachable_region 2 1 witGridGray 0 0 cRed (by decide)
      (by decide) (by decide) (by decide) (by decide)⟩

/-- C2: for every surface, click coordinate and fill color the flood-fill
worklist loop terminates: some fuel empties the queue, and any larger fuel
yields the same final state (the grid is finite and each pixel is colored at
most once before being excluded by the already-fill-color check). -/
theorem c2_fill_loop_terminates (w h : Nat) (g0 : Grid) (sx sy : Int) (f : Rgba)
    (hnorm : f.r ≤ 255 ∧ f.g ≤ 255 ∧ f.b ≤ 255 ∧ f.a ≤ 255) :
    ∃ n : Nat,
      (fillLoop ⟨w, h, seedColor g0 sx sy, rgbaToJs f⟩ n ⟨g0, [(sx, sy)]⟩).queue
        = [] ∧
      ∀ m : Nat, n ≤ m →
        fillLoop ⟨w, h, seedColor g0 sx sy, rgbaToJs f⟩ m ⟨g0, [(sx, sy)]⟩
          = fillLoop ⟨w, h, seedColor g0 sx sy, rgbaToJs f⟩ n ⟨g0, [(sx, sy)]⟩ := by
  have hfc : rgbIsFillB (writeRgba (rgbaToJs f)) (rgbaToJs f) = true :=
    rgbIsFillB_writeRgba f hnorm.1 hnorm.2.1 hnorm.2.2.1
  exact ⟨fillMeasure _ _, fillLoop_drains _ hfc _ _ le_rfl,
    fun m hm => fillLoop_stable _ _ _ _ (fillLoop_drains _ hfc _ _ le_rfl) hm⟩

/-- C2 witness: termination of the loop on a concrete 2×1 gray surface with a
red fill. -/
theorem c2_fill_loop_terminates_witness :
    (cRed.r ≤ 255 ∧ cRed.g ≤ 255 ∧ cRed.b ≤ 255 ∧ cRed.a ≤ 255) ∧
    ∃ n : Nat,
      (fillLoop ⟨2, 1, seedColor witGridGray 0 0, rgbaToJs cRed⟩ n
        ⟨witGridGray, [(0, 0)]⟩).queue = [] ∧
      ∀ m : Nat, n ≤ m →
        fillLoop ⟨2, 1, seedColor witGridGray 0 0, rgbaToJs cRed⟩ m
            ⟨witGridGray, [(0, 0)]⟩
          = fillLoop ⟨2, 1, seedColor witGridGray 0 0, rgbaToJs cRed⟩ n
            ⟨witGridGray, [(0, 0)]⟩ :=
  ⟨by decide, c2_fill_loop_terminates 2 1 witGridGray 0 0 cRed (by decide)⟩

/-- C3: invoking `floodFill` at a pixel classified as line (red, green and
blue channels all below 128) leaves every pixel of the surface unchanged, for
every surface and fill color. -/
theorem c3_line_seed_noop (w h : Nat) (g0 : Grid) (sx sy : Int) (fc : JsRgba)
    (hline : isLineRgb (g0 sx sy).r (g0 sx sy).g (g0 sx sy).b = true) :
    floodFill w h g0 sx sy fc = g0 :=
  floodFill_line_eq w h g0 sx sy fc hline

/-- C3 witness: clicking a black pixel of a concrete black 2×2 surface with a
red fill changes nothing. -/
theorem c3_line_seed_noop_witness :
    isLineRgb (blackGrid 0 0).r (blackGrid 0 0).g (blackGrid 0 0).b = true ∧
    floodFill 2 2 blackGrid 0 0 (rgbaToJs cRed) = blackGrid :=
  ⟨by decide, c3_line_seed_noop 2 2 blackGrid 0 0 (rgbaToJs cRed) (by decide)⟩

/-- C4: `floodFill` is idempotent — running it twice with the same seed and
fill color yields the surface of a single run (after a first effective run
the seed already holds the target color, so the second run exits early). -/
theorem c4_fill_idempotent (w h : Nat) (g0 : Grid) (sx sy : Int) (f : Rgba)
    (hnorm : f.r ≤ 255 ∧ f.g ≤ 255 ∧ f.b ≤ 255 ∧ f.a ≤ 255) :
    floodFill w h (floodFill w h g0 sx sy (rgbaToJs f)) sx sy (rgbaToJs f)
      = floodFill w h g0 sx sy (rgbaToJs f) := by
  by_cases h1 : rgbIsFillB (g0 sx sy) (rgbaToJs f) = true
  · have hg1 := floodFill_seedfill_eq w h g0 sx sy (rgbaToJs f) h1
    rw [hg1]
    exact hg1
  · by_cases h2 : isLineRgb (g0 sx sy).r (g0 sx sy).g (g0 sx sy).b = true
    · have hg1 := floodFill_line_eq w h g0 sx sy (rgbaToJs f) h2
      rw [hg1]
      exact hg1
    · by_cases h3 : sx < 0 ∨ (w : Int) ≤ sx ∨ sy < 0 ∨ (h : Int) ≤ sy
      · have hg1 := floodFill_oob_eq w h g0 sx sy (rgbaToJs f) h3
        rw [hg1]
        exact hg1
      · push_neg at h3
        have hPseed : passFill g0 w h (seedColor g0 sx sy) (rgbaToJs f)
            (sx, sy) := by
          refine ⟨⟨h3.1, h3.2.1, h3.2.2.1, h3.2.2.2, by simpa using h2, ?_⟩,
            by simpa using h1⟩
          exact inTol_self (g0 sx sy).r (g0 sx sy).g (g0 sx sy).b
        have hseedf : floodFill w h g0 sx sy (rgbaToJs f) sx sy = f :=
          (floodFill_spec w h g0 sx sy f hnorm).1 (sx, sy)
            (ReachL.refl _ hPseed)
        apply floodFill_seedfill_eq
        rw [hseedf]
        exact rgbIsFillB_self f

/-- C4 witness: idempotence on a concrete 2×1 gray surface with a red fill. -/
theorem c4_fill_idempotent_witness :
    (cRed.r ≤ 255 ∧ cRed.g ≤ 255 ∧ cRed.b ≤ 255 ∧ cRed.a ≤ 255) ∧
    floodFill 2 1 (floodFill 2 1 witGridGray 0 0 (rgbaToJs cRed)) 0 0
        (rgbaToJs cRed)
      = floodFill 2 1 witGridGray 0 0 (rgbaToJs cRed) :=
  ⟨by decide, c4_fill_idempotent 2 1 witGridGray 0 0 cRed (by decide)⟩

/-- C10: invoking `floodFill` with a seed coordinate outside the surface
bounds leaves every pixel of the surface unchanged: whatever the out-of-range
seed read yields, either an early exit fires or the seed entry is discarded
by the bounds check before any pixel is written. -/
theorem c10_oob_seed_noop (w h : Nat) (g0 : Grid) (sx sy : Int) (fc : JsRgba)
    (hoob : ¬ (0 ≤ sx ∧ sx < (w : Int) ∧ 0 ≤ sy ∧ sy < (h : Int))) :
    floodFill w h g0 sx sy fc = g0 :=
  floodFill_oob_eq w h g0 sx sy fc (by omega)

/-- C10 witness: a click at x = 5 on a concrete 2×2 gray surface changes
nothing. -/
theorem c10_oob_seed_noop_witness :
    ¬ ((0 : Int) ≤ 5 ∧ (5 : Int) < ((2 : Nat) : Int) ∧ (0 : Int) ≤ 0 ∧
        (0 : Int) < ((2 : Nat) : Int)) ∧
    floodFill 2 2 witGridGray 5 0 (rgbaToJs cRed) = witGridGray :=
  ⟨by decide, c10_oob_seed_noop 2 2 witGridGray 5 0 (rgbaToJs cRed) (by decide)⟩

/-- C5 (counterexample to the claim as stated): clicking the single line
pixel of a concrete 1×1 canvas modifies no pixel, yet the report callback is
still invoked — the callback does not fire exactly when the surface changed. -/
theorem c5_counterexample :
    (handleCanvasClick (some cexCanvasC5) true 0 0 "#FF0000").2 = true ∧
    (handleCanvasClick (some cexCanvasC5) true 0 0 "#FF0000").1
      = some cexCanvasC5 := by
  constructor
  · rfl
  · show some { cexCanvasC5 with
        pix := floodFill 1 1 cexCanvasC5.pix
          (clickToCanvasCoords cexCanvasC5 0 0).1
          (clickToCanvasCoords cexCanvasC5 0 0).2 (hexToRgba "#FF0000") }
      = some cexCanvasC5
    rw [floodFill_line_eq 1 1 cexCanvasC5.pix _ _ (hexToRgba "#FF0000") rfl]

/-- C5 (amended): the report callback is invoked after every click handled
with a canvas and 2d context present — regardless of whether the fill
modified any pixel — and is not invoked when the canvas or context is
missing. -/
theorem c5_callback_on_every_click :
    (∀ (c : Canvas) (clientX clientY : ℚ) (color : String),
      (handleCanvasClick (some c) true clientX clientY color).2 = true) ∧
    (∀ (hasCtx : Bool) (clientX clientY : ℚ) (color : String),
      (handleCanvasClick none hasCtx clientX clientY color).2 = false) ∧
    (∀ (c : Canvas) (clientX clientY : ℚ) (color : String),
      (handleCanvasClick (some c) false clientX clientY color).2 = false) :=
  ⟨fun _ _ _ _ => rfl, fun _ _ _ _ => rfl, fun _ _ _ _ => rfl⟩

lemma parseIntHex_two (c d : Char) (hc : isHexDigitB c = true)
    (hd : isHexDigitB d = true) :
    parseIntHex (String.mk [c, d]) = some (16 * hexDigitVal c + hexDigitVal d) := by
  have h1 : List.takeWhile isHexDigitB [c, d] = [c, d] := by
    simp [List.takeWhile_cons, hc, hd]
  unfold parseIntHex
  rw [show (String.mk [c, d]).data = [c, d] from rfl, h1]
  rw [if_neg (by simp)]
  simp only [List.foldl_cons, List.foldl_nil, Option.some.injEq]
  ring

/-- C6: `hexToRgba` parses a hexadecimal RGB triplet string: a `#RGB` string
duplicates each digit, a `#RRGGBB` string takes two-digit values, any other
length yields channel values 0; the alpha component is always 255; and the
two concrete examples from the spec evaluate as stated. -/
theorem c6_hexToRgba_spec :
    (∀ c1 c2 c3 : Char, isHexDigitB c1 = true → isHexDigitB c2 = true →
      isHexDigitB c3 = true →
      hexToRgba (String.mk ['#', c1, c2, c3])
        = (some (17 * hexDigitVal c1), some (17 * hexDigitVal c2),
            some (17 * hexDigitVal c3), some 255)) ∧
    (∀ c1 c2 c3 c4 c5 c6 : Char, isHexDigitB c1 = true →
      isHexDigitB c2 = true → isHexDigitB c3 = true → isHexDigitB c4 = true →
      isHexDigitB c5 = true → isHexDigitB c6 = true →
      hexToRgba (String.mk ['#', c1, c2, c3, c4, c5, c6])
        = (some (16 * hexDigitVal c1 + hexDigitVal c2),
            some (16 * hexDigitVal c3 + hexDigitVal c4),
            some (16 * hexDigitVal c5 + hexDigitVal c6), some 255)) ∧
    (∀ s : String, s.length ≠ 4 → s.length ≠ 7 →
      hexToRgba s = (some 0, some 0, some 0, some 255)) ∧
    (∀ s : String, (hexToRgba s).2.2.2 = some 255) ∧
    hexToRgba "#FFF" = (some 255, some 255, some 255, some 255) ∧
    hexToRgba "#1E90FF" = (some 30, some 144, some 255, some 255) := by
  refine ⟨?_, ?_, ?_, ?_, by decide, by decide⟩
  · intro c1 c2 c3 h1 h2 h3
    have e1 : hexToRgba (String.mk ['#', c1, c2, c3])
        = (parseIntHex (String.mk [c1, c1]), parseIntHex (String.mk [c2, c2]),
            parseIntHex (String.mk [c3, c3]), some 255) := rfl
    rw [e1, parseIntHex_two c1 c1 h1 h1, parseIntHex_two c2 c2 h2 h2,
      parseIntHex_two c3 c3 h3 h3]
    simp only [Prod.mk.injEq, Option.some.injEq]
    exact ⟨by ring, by ring, by ring, trivial⟩
  · intro c1 c2 c3 c4 c5 c6 h1 h2 h3 h4 h5 h6
    have e2 : hexToRgba (String.mk ['#', c1, c2, c3, c4, c5, c6])
        = (parseIntHex (String.mk [c1, c2]), parseIntHex (String.mk [c3, c4]),
            parseIntHex (String.mk [c5, c6]), some 255) := rfl
    rw [e2, parseIntHex_two c1 c2 h1 h2, parseIntHex_two c3 c4 h3 h4,
      parseIntHex_two c5 c6 h5 h6]
  · intro s h4 h7
    unfold hexToRgba
    rw [if_neg h4, if_neg h7]
  · intro s
    unfold hexToRgba
    split_ifs
    · split <;> rfl
    · split <;> rfl
    · rfl

/-- C6 witness: the `#RGB` clause applied to the concrete digits A, B, C. -/
theorem c6_hexToRgba_spec_witness :
    (isHexDigitB 'A' = true ∧ isHexDigitB 'B' = true ∧
      isHexDigitB 'C' = true) ∧
    hexToRgba (String.mk ['#', 'A', 'B', 'C'])
      = (some (17 * hexDigitVal 'A'), some (17 * hexDigitVal 'B'),
          some (17 * hexDigitVal 'C'), some 255) :=
  ⟨⟨by decide, by decide, by decide⟩,
    c6_hexToRgba_spec.1 'A' 'B' 'C' (by decide) (by decide) (by decide)⟩

/-- C7: the click-to-surface mapping multiplies the display-relative offset
by the per-axis scale factor: on an 800×800 surface displayed at 400×400, a
click at display offset (100, 100) maps to surface coordinate (200, 200),
both in the coloring canvas's click handler and in the drawing canvas's
`getCoordinates`. -/
theorem c7_click_coordinate_mapping :
    clickToCanvasCoords ⟨800, 800, ⟨0, 0, 400, 400⟩, fun _ _ => white⟩ 100 100
      = (200, 200) ∧
    getCoordinates (some ⟨800, 800, ⟨0, 0, 400, 400⟩, fun _ _ => white⟩)
      (.mouse 100 100) = some (200, 200) :=
  ⟨by norm_num [clickToCanvasCoords], by norm_num [getCoordinates]⟩

/-- C9: the input capturer's continue operation (`draw`) is a silent no-op
when no stroke is in progress or when the surface-space coordinate mapping
fails: the stroke state and the canvas are returned unchanged. -/
theorem c9_draw_noop (st : DrawState) (canvas : Option Canvas) (hasCtx : Bool)
    (e : PEvent)
    (h : st.isDrawing = false ∨ getCoordinates canvas e = none) :
    draw st canvas hasCtx e = (st, canvas) := by
  unfold draw
  rcases h with hidle | hmap
  · rw [if_pos hidle]
  · split_ifs with hdraw
    · rfl
    · cases canvas with
      | none => rfl
      | some c =>
        rw [hmap]
        cases hasCtx
        · rfl
        · rfl

/-- C9 witness: a mouse-move on an idle state changes nothing. -/
theorem c9_draw_noop_witness :
    ((⟨false, none⟩ : DrawState).isDrawing = false ∨
      getCoordinates (some witCanvasC8) (.mouse 1 1) = none) ∧
    draw ⟨false, none⟩ (some witCanvasC8) true (.mouse 1 1)
      = (⟨false, none⟩, some witCanvasC8) :=
  ⟨Or.inl rfl,
    c9_draw_noop ⟨false, none⟩ (some witCanvasC8) true (.mouse 1 1)
      (Or.inl rfl)⟩

lemma mem_gridCoords {w h : Nat} {p : Int × Int} :
    p ∈ gridCoords w h ↔
      0 ≤ p.1 ∧ p.1 < (w : Int) ∧ 0 ≤ p.2 ∧ p.2 < (h : Int) := by
  obtain ⟨px, py⟩ := p
  constructor
  · intro hp
    obtain ⟨x, hx, hmem⟩ := List.mem_flatMap.mp hp
    obtain ⟨y, hy, hxy⟩ := List.mem_map.mp hmem
    rw [List.mem_range] at hx hy
    injection hxy with h1 h2
    have h1' : ((x : Nat) : Int) = px := h1
    have h2' : ((y : Nat) : Int) = py := h2
    refine ⟨?_, ?_, ?_, ?_⟩ <;> omega
  · rintro ⟨h1, h2, h3, h4⟩
    refine List.mem_flatMap.mpr ⟨px.toNat, ?_, List.mem_map.mpr
      ⟨py.toNat, ?_, ?_⟩⟩
    · rw [List.mem_range]; omega
    · rw [List.mem_range]; omega
    · rw [Prod.mk.injEq]
      exact ⟨show ((px.toNat : Nat) : Int) = px by omega,
        show ((py.toNat : Nat) : Int) = py by omega⟩

/-- The clamped-projection point of `segDist2` is never farther from the
query point than the segment's start point. -/
lemma segDist2_le_left (a b c : ℚ × ℚ) : segDist2 a b c ≤ dist2 c a := by
  unfold segDist2
  dsimp only
  split_ifs with hlen
  · exact le_refl _
  · have hL : 0 < (b.1 - a.1) ^ 2 + (b.2 - a.2) ^ 2 :=
      lt_of_le_of_ne (by positivity) (Ne.symm hlen)
    rcases le_or_lt ((c.1 - a.1) * (b.1 - a.1) + (c.2 - a.2) * (b.2 - a.2)) 0
      with hu | hu
    · have hdiv : ((c.1 - a.1) * (b.1 - a.1) + (c.2 - a.2) * (b.2 - a.2)) /
          ((b.1 - a.1) ^ 2 + (b.2 - a.2) ^ 2) ≤ 0 :=
        div_nonpos_iff.mpr (Or.inr ⟨hu, hL.le⟩)
      have ht : max 0 (min 1 (((c.1 - a.1) * (b.1 - a.1) +
          (c.2 - a.2) * (b.2 - a.2)) /
          ((b.1 - a.1) ^ 2 + (b.2 - a.2) ^ 2))) = 0 :=
        max_eq_left (le_trans (min_le_right _ _) hdiv)
      rw [ht]
      apply le_of_eq
      unfold dist2
      ring
    · set L : ℚ := (b.1 - a.1) ^ 2 + (b.2 - a.2) ^ 2 with hLdef
      set u : ℚ := (c.1 - a.1) * (b.1 - a.1) + (c.2 - a.2) * (b.2 - a.2)
        with hudef
      set t : ℚ := max 0 (min 1 (u / L)) with htdef
      have ht0 : 0 ≤ t := le_max_left _ _
      have htu : t * L ≤ u := by
        have h1 : t ≤ u / L :=
          max_le (div_nonneg hu.le hL.le) (min_le_right _ _)
        exact (le_div_iff₀ hL).mp h1
      have key : dist2 c (a.1 + t * (b.1 - a.1), a.2 + t * (b.2 - a.2))
          = dist2 c a - 2 * (t * u) + t * (t * L) := by
        rw [hLdef, hudef]
        unfold dist2
        ring
      rw [key]
      have h2 : t * (t * L) ≤ t * u :=
        mul_le_mul_of_nonneg_left htu ht0
      have h3 : 0 ≤ t * u := mul_nonneg ht0 hu.le
      linarith

/-- C8: immediately after `clearCanvas` the query `isCanvasBlank` returns
true (every pixel is opaque white), and after any single non-degenerate
stroke whose start point lies on the surface is drawn onto a cleared surface,
`isCanvasBlank` returns false. -/
theorem c8_clear_blank_stroke_not_blank :
    (∀ c : Canvas, isCanvasBlank (clearCanvas c) = true) ∧
    (∀ (c : Canvas) (a b : ℚ × ℚ), a ≠ b →
      0 ≤ a.1 → a.1 < (c.width : ℚ) → 0 ≤ a.2 → a.2 < (c.height : ℚ) →
      isCanvasBlank (strokeSegment (clearCanvas c) a b) = false) := by
  constructor
  · intro c
    unfold isCanvasBlank
    rw [List.all_eq_true]
    intro p hp
    have hb := mem_gridCoords.mp hp
    unfold clearCanvas
    dsimp only
    rw [if_pos ⟨hb.1, hb.2.1, hb.2.2.1, hb.2.2.2⟩]
    simp
  · intro c a b hne ha1 ha2 ha3 ha4
    have hx0 : (0 : Int) ≤ ⌊a.1⌋ := by
      rw [Int.le_floor]
      exact_mod_cast ha1
    have hxw : ⌊a.1⌋ < (c.width : Int) := by
      rw [Int.floor_lt]
      exact_mod_cast ha2
    have hy0 : (0 : Int) ≤ ⌊a.2⌋ := by
      rw [Int.le_floor]
      exact_mod_cast ha3
    have hyh : ⌊a.2⌋ < (c.height : Int) := by
      rw [Int.floor_lt]
      exact_mod_cast ha4
    have hdist : segDist2 a b (((⌊a.1⌋ : ℚ)) + 1 / 2, ((⌊a.2⌋ : ℚ)) + 1 / 2)
        ≤ 25 / 4 := by
      have h1 := Int.floor_le a.1
      have h2 := Int.lt_floor_add_one a.1
      have h3 := Int.floor_le a.2
      have h4 := Int.lt_floor_add_one a.2
      have hb1 : ((⌊a.1⌋ : ℚ) + 1 / 2 - a.1) ^ 2 ≤ 1 / 4 := by nlinarith
      have hb2 : ((⌊a.2⌋ : ℚ) + 1 / 2 - a.2) ^ 2 ≤ 1 / 4 := by nlinarith
      calc segDist2 a b (((⌊a.1⌋ : ℚ)) + 1 / 2, ((⌊a.2⌋ : ℚ)) + 1 / 2)
          ≤ dist2 (((⌊a.1⌋ : ℚ)) + 1 / 2, ((⌊a.2⌋ : ℚ)) + 1 / 2) a :=
            segDist2_le_left a b _
        _ ≤ 25 / 4 := by
            unfold dist2
            dsimp only
            linarith
    have hpix : (strokeSegment (clearCanvas c) a b).pix ⌊a.1⌋ ⌊a.2⌋ = black := by
      unfold strokeSegment
      dsimp only
      rw [if_pos ⟨⟨hx0, hxw, hy0, hyh⟩, hdist⟩]
    rw [Bool.eq_false_iff]
    intro htrue
    unfold isCanvasBlank at htrue
    rw [List.all_eq_true] at htrue
    have hmem : ((⌊a.1⌋ : Int), (⌊a.2⌋ : Int)) ∈
        gridCoords (strokeSegment (clearCanvas c) a b).width
          (strokeSegment (clearCanvas c) a b).height :=
      mem_gridCoords.mpr ⟨hx0, hxw, hy0, hyh⟩
    have hw := htrue _ hmem
    rw [hpix] at hw
    simp [black, white] at hw

/-- C8 witness: a stroke from (1, 1) to (2, 2) on a cleared concrete 4×4
canvas leaves it non-blank. -/
theorem c8_clear_blank_stroke_not_blank_witness :
    (((1, 1) : ℚ × ℚ) ≠ (2, 2) ∧ (0 : ℚ) ≤ 1 ∧ (1 : ℚ) < ((4 : Nat) : ℚ)) ∧
    isCanvasBlank (strokeSegment (clearCanvas witCanvasC8) (1, 1) (2, 2))
      = false :=
  ⟨⟨by intro hcon; rw [Prod.mk.injEq] at hcon; exact absurd hcon.1 (by norm_num),
      by norm_num, by norm_num⟩,
    c8_clear_blank_stroke_not_blank.2 witCanvasC8 (1, 1) (2, 2)
      (by intro hcon; rw [Prod.mk.injEq] at hcon; exact absurd hcon.1 (by norm_num))
      (by norm_num) (by norm_num [witCanvasC8]) (by norm_num)
      (by norm_num [witCanvasC8])⟩
